import Mathlib

/-!
Verification of the spreadsheet-scraper repository (scraper.py and
scraper_improved.py) against its natural-language specification.

The development shallowly embeds the pure logic of both source files:

* price parsing (`extraer_precio`, `extraer_precio_por_kg`),
* candidate filtering and selection (`es_precio_valido`,
  `encontrar_precios_en_dom`),
* the unit converter (`precio_por_kg`, with Python `round` modelled as
  round-half-to-even on exact rationals),
* the spreadsheet reconciler (`mapear_sku_a_fila`, `escribir_pweb`,
  `escribir_jumbo_historico` in both variants), over a sheet modelled as a
  list of rows of string-valued cells, and
* the orchestrator's per-row validation and write-back sequencing, with the
  browser fetch treated as an external parameter.

Sheets are `List (List String)`: row r, column c are 1-based as in A1
notation; a cell outside the stored region reads as the blank string, and
writing beyond the stored region grows it, mirroring the Google Sheets grid.
-/

/-! ## Python string primitives -/

/-- Python `\s` for the ASCII range: space, tab, newline, carriage return,
vertical tab, form feed. -/
def pyIsSpace (c : Char) : Bool :=
  c = ' ' || c = '\t' || c = '\n' || c = '\r' || c = Char.ofNat 11 || c = Char.ofNat 12

/-- Python `str.lower` on the Basic Latin and Latin-1 letters that occur in
this program (ASCII `A`-`Z` and the accented capitals `À`-`Þ` except `×`). -/
def pyLowerChar (c : Char) : Char :=
  if 'A' ≤ c ∧ c ≤ 'Z' then Char.ofNat (c.toNat + 32)
  else if 0xC0 ≤ c.toNat ∧ c.toNat ≤ 0xDE ∧ c.toNat ≠ 0xD7 then Char.ofNat (c.toNat + 32)
  else c

/-- Python `str.lower` lifted to strings. -/
def pyLower (s : String) : String :=
  ⟨s.data.map pyLowerChar⟩

/-- Python `needle in hay` substring test. -/
def pyIn (needle hay : String) : Bool :=
  decide (needle.data <:+: hay.data)

/-- Python `str.strip` on a character list: drop leading and trailing
whitespace. -/
def pyStripList (l : List Char) : List Char :=
  ((l.dropWhile pyIsSpace).reverse.dropWhile pyIsSpace).reverse

/-- Python `str.strip`. -/
def pyStrip (s : String) : String :=
  ⟨pyStripList s.data⟩

/-- Python `t.startswith(p)`. -/
def pyStartswith (p t : String) : Bool :=
  p.data.isPrefixOf t.data

/-- Python `str.isdigit` on a character list: nonempty and all digits. -/
def pyIsdigit (l : List Char) : Bool :=
  !l.isEmpty && l.all Char.isDigit

/-- Python `int` applied to a string of decimal digits. -/
def parseDigits (l : List Char) : ℤ :=
  l.foldl (fun n c => 10 * n + ((c.toNat : ℤ) - 48)) 0

/-! ## The sheet model -/

/-- A worksheet: rows of string-valued cells, row 1 first.  Cells outside the
stored region are blank. -/
abbrev Sheet := List (List String)

/-- Read the 1-based column `c` of one row; blank outside the stored cells. -/
def getRowCell (row : List String) (c : Nat) : String :=
  row.getD (c - 1) ""

/-- Read the cell at 1-based row `r`, column `c`. -/
def getCell (s : Sheet) (r c : Nat) : String :=
  getRowCell (s.getD (r - 1) []) c

/-- Write the 1-based column `c` of one row, padding with blanks if the row
is shorter. -/
def setRowCell (row : List String) (c : Nat) (v : String) : List String :=
  (row ++ List.replicate (c - row.length) "").set (c - 1) v

/-- Write the cell at 1-based row `r`, column `c`, growing the sheet with
empty rows if needed (the Sheets grid extends past the stored values). -/
def setCell (s : Sheet) (r c : Nat) (v : String) : Sheet :=
  let s2 := s ++ List.replicate (r - s.length) ([] : List String)
  s2.set (r - 1) (setRowCell (s2.getD (r - 1) []) c v)

/-- One staged A1 write: target row, target column, value. -/
abbrev Update := Nat × Nat × String

/-- gspread `worksheet.batch_update`: apply the staged writes in order. -/
def batch_update (s : Sheet) (us : List Update) : Sheet :=
  us.foldl (fun t u => setCell t u.1 u.2.1 u.2.2) s

/-- gspread `worksheet.col_values`: the 1-based column `c` of every stored
row. -/
def col_values (s : Sheet) (c : Nat) : List String :=
  s.map (fun row => getRowCell row c)

/-! ## SKU → row map (`mapear_sku_a_fila`, scraper.py lines 632-642 and
scraper_improved.py lines 304-314) -/

/-- Loop body state of `mapear_sku_a_fila`: the Python dict is a partial map
from SKU to row index; `mapping[sku] = i` overwrites. -/
def mapearAux : Nat → List String → (String → Option Nat) → (String → Option Nat)
  | _, [], m => m
  | i, v :: rest, m =>
      mapearAux (i + 1) rest
        (if i = 1 then m
         else if pyStrip v = "" then m
         else fun k => if k = pyStrip v then some i else m k)

/-- `mapear_sku_a_fila`: SKU → 1-based row index over a column's values; the
header row is skipped, blank SKUs are skipped, and a later duplicate
overwrites an earlier row index. -/
def mapear_sku_a_fila (values : List String) : String → Option Nat :=
  mapearAux 1 values (fun _ => none)

/-- Reference reading of the dict built by `mapear_sku_a_fila`: the last
1-based position `≥ i₀`, other than position 1, whose stripped value is the
(nonblank) key. -/
def lastOcc : Nat → List String → String → Option Nat
  | _, [], _ => none
  | i, v :: rest, k =>
      match lastOcc (i + 1) rest k with
      | some r => some r
      | none => if i ≠ 1 ∧ pyStrip v = k ∧ k ≠ "" then some i else none

theorem mapearAux_eq_lastOcc (vals : List String) :
    ∀ (i : Nat) (m : String → Option Nat) (k : String),
      mapearAux i vals m k = match lastOcc i vals k with
        | some r => some r
        | none => m k := by
  induction vals with
  | nil => intro i m k; rfl
  | cons v rest ih =>
      intro i m k
      show mapearAux (i + 1) rest
        (if i = 1 then m
         else if pyStrip v = "" then m
         else fun k' => if k' = pyStrip v then some i else m k') k = _
      rw [ih]
      cases htail : lastOcc (i + 1) rest k with
      | some r => simp [lastOcc, htail]
      | none =>
          simp only [lastOcc, htail]
          by_cases hcond : i ≠ 1 ∧ pyStrip v = k ∧ k ≠ ""
          · rw [if_pos hcond]
            obtain ⟨hi, hk, hne⟩ := hcond
            rw [if_neg hi, if_neg (fun h => hne (by rw [← hk, h]))]
            simp [hk]
          · rw [if_neg hcond]
            by_cases hi : i = 1
            · rw [if_pos hi]
            · rw [if_neg hi]
              by_cases hv : pyStrip v = ""
              · rw [if_pos hv]
              · rw [if_neg hv]
                have hk : k ≠ pyStrip v := by
                  intro h
                  exact hcond ⟨hi, h.symm, fun h0 => hv (by rw [← h, h0])⟩
                simp [hk]

theorem mapear_eq_lastOcc (vals : List String) (k : String) :
    mapear_sku_a_fila vals k = lastOcc 1 vals k := by
  rw [mapear_sku_a_fila, mapearAux_eq_lastOcc]
  cases lastOcc 1 vals k <;> rfl

/-! ### Properties of `lastOcc` -/

theorem lastOcc_some (vals : List String) :
    ∀ (i r : Nat) (k : String), lastOcc i vals k = some r →
      i ≤ r ∧ r < i + vals.length ∧ r ≠ 1 ∧ k ≠ "" ∧
        ∃ v, vals.get? (r - i) = some v ∧ pyStrip v = k := by
  induction vals with
  | nil => intro i r k h; simp [lastOcc] at h
  | cons v rest ih =>
      intro i r k h
      rw [lastOcc] at h
      cases htail : lastOcc (i + 1) rest k with
      | some r' =>
          rw [htail] at h
          cases h
          obtain ⟨h1, h2, h3, h4, w, hw, hww⟩ := ih (i + 1) r k htail
          refine ⟨by omega, by simp only [List.length_cons]; omega, h3, h4, w, ?_, hww⟩
          have hsub : r - i = (r - (i + 1)) + 1 := by omega
          rw [hsub]
          simpa using hw
      | none =>
          rw [htail] at h
          by_cases hc : i ≠ 1 ∧ pyStrip v = k ∧ k ≠ ""
          · rw [if_pos hc] at h
            cases h
            exact ⟨le_refl _, by simp only [List.length_cons]; omega, hc.1, hc.2.2, v,
              by simp, hc.2.1⟩
          · rw [if_neg hc] at h
            exact absurd h (by simp)

theorem lastOcc_complete (vals : List String) :
    ∀ (i j : Nat) (k : String) (v : String), j ≠ 1 → i ≤ j → j < i + vals.length →
      vals.get? (j - i) = some v → pyStrip v = k → k ≠ "" →
      ∃ r, lastOcc i vals k = some r := by
  induction vals with
  | nil =>
      intro i j k v _ hij hj _ _ _
      simp only [List.length_nil, Nat.add_zero] at hj
      omega
  | cons w rest ih =>
      intro i j k v hj1 hij hj hget hstrip hk
      rw [lastOcc]
      cases htail : lastOcc (i + 1) rest k with
      | some r' => exact ⟨r', rfl⟩
      | none =>
          by_cases hji : j = i
          · have hsub : j - i = 0 := by omega
            rw [hsub] at hget
            simp only [List.get?_cons_zero, Option.some.injEq] at hget
            subst hget
            refine ⟨i, ?_⟩
            rw [if_pos ⟨by omega, hstrip, hk⟩]
          · have hsub : j - i = (j - (i + 1)) + 1 := by omega
            rw [hsub] at hget
            simp only [List.get?_cons_succ] at hget
            obtain ⟨r, hr⟩ := ih (i + 1) j k v hj1 (by omega)
              (by simp only [List.length_cons] at hj; omega) hget hstrip hk
            rw [hr] at htail
            exact absurd htail (by simp)

theorem lastOcc_maximal (vals : List String) :
    ∀ (i r j : Nat) (k : String), lastOcc i vals k = some r →
      r < j → j < i + vals.length → j ≠ 1 →
      ∀ v, vals.get? (j - i) = some v → pyStrip v ≠ k := by
  induction vals with
  | nil => intro i r j k h; simp [lastOcc] at h
  | cons v rest ih =>
      intro i r j k h hrj hj hj1 w hw hwk
      rw [lastOcc] at h
      cases htail : lastOcc (i + 1) rest k with
      | some r' =>
          rw [htail] at h
          cases h
          obtain ⟨hb1, hb2, hb3, hb4, -⟩ := lastOcc_some rest (i + 1) r k htail
          have hsub : j - i = (j - (i + 1)) + 1 := by omega
          rw [hsub] at hw
          simp only [List.get?_cons_succ] at hw
          exact ih (i + 1) r j k htail hrj
            (by simp only [List.length_cons] at hj; omega) hj1 w hw hwk
      | none =>
          rw [htail] at h
          by_cases hc : i ≠ 1 ∧ pyStrip v = k ∧ k ≠ ""
          · rw [if_pos hc] at h
            cases h
            -- here r = i < j, so the occurrence at j is inside the tail,
            -- contradicting `htail`
            have hsub : j - i = (j - (i + 1)) + 1 := by omega
            rw [hsub] at hw
            simp only [List.get?_cons_succ] at hw
            obtain ⟨r', hr'⟩ := lastOcc_complete rest (i + 1) j k w hj1 (by omega)
              (by simp only [List.length_cons] at hj; omega) hw hwk hc.2.2
            rw [hr'] at htail
            exact absurd htail (by simp)
          · rw [if_neg hc] at h
            exact absurd h (by simp)

/-! ### Derived properties of `mapear_sku_a_fila` -/

theorem mapear_some (vals : List String) (k : String) (r : Nat)
    (h : mapear_sku_a_fila vals k = some r) :
    2 ≤ r ∧ r ≤ vals.length ∧ k ≠ "" ∧
      ∃ v, vals.get? (r - 1) = some v ∧ pyStrip v = k := by
  rw [mapear_eq_lastOcc] at h
  obtain ⟨h1, h2, h3, h4, v, hv, hvk⟩ := lastOcc_some vals 1 r k h
  exact ⟨by omega, by omega, h4, v, hv, hvk⟩

theorem mapear_last (vals : List String) (k : String) (r j : Nat)
    (h : mapear_sku_a_fila vals k = some r) (hrj : r < j) (hj : j ≤ vals.length) :
    ∀ v, vals.get? (j - 1) = some v → pyStrip v ≠ k := by
  obtain ⟨hr2, -, -, -⟩ := mapear_some vals k r h
  rw [mapear_eq_lastOcc] at h
  exact lastOcc_maximal vals 1 r j k h hrj (by omega) (by omega)

theorem mapear_complete (vals : List String) (k v : String) (j : Nat)
    (hj2 : 2 ≤ j) (hj : j ≤ vals.length) (hget : vals.get? (j - 1) = some v)
    (hstrip : pyStrip v = k) (hk : k ≠ "") :
    ∃ r, mapear_sku_a_fila vals k = some r := by
  obtain ⟨r, hr⟩ := lastOcc_complete vals 1 j k v (by omega) (by omega) (by omega) hget hstrip hk
  exact ⟨r, by rw [mapear_eq_lastOcc]; exact hr⟩

theorem mapear_inj (vals : List String) (k k' : String) (r : Nat)
    (h : mapear_sku_a_fila vals k = some r) (h' : mapear_sku_a_fila vals k' = some r) :
    k = k' := by
  obtain ⟨-, -, -, v, hv, hvk⟩ := mapear_some vals k r h
  obtain ⟨-, -, -, v', hv', hvk'⟩ := mapear_some vals k' r h'
  rw [hv] at hv'
  cases hv'
  rw [← hvk, hvk']

theorem mapear_none_of_no_occ (vals : List String) (k : String)
    (h : ∀ j v, vals.get? j = some v → pyStrip v ≠ k) :
    mapear_sku_a_fila vals k = none := by
  cases hm : mapear_sku_a_fila vals k with
  | none => rfl
  | some r =>
      obtain ⟨-, -, -, v, hv, hvk⟩ := mapear_some vals k r hm
      exact absurd hvk (h (r - 1) v hv)

theorem lastOcc_append (a b : List String) :
    ∀ (i : Nat) (k : String), lastOcc i (a ++ b) k =
      match lastOcc (i + a.length) b k with
      | some r => some r
      | none => lastOcc i a k := by
  induction a with
  | nil =>
      intro i k
      simp only [List.nil_append, List.length_nil, Nat.add_zero]
      cases h : lastOcc i b k with
      | some r => simp [h]
      | none => simp [h, lastOcc]
  | cons v rest ih =>
      intro i k
      show lastOcc i (v :: (rest ++ b)) k = _
      rw [lastOcc, ih (i + 1)]
      have harith : i + 1 + rest.length = i + (v :: rest).length := by
        simp only [List.length_cons]; omega
      rw [harith]
      cases htail : lastOcc (i + (v :: rest).length) b k with
      | some r => rfl
      | none => rw [lastOcc]

theorem mapear_append (a b : List String) (k : String) :
    mapear_sku_a_fila (a ++ b) k =
      match lastOcc (1 + a.length) b k with
      | some r => some r
      | none => mapear_sku_a_fila a k := by
  rw [mapear_eq_lastOcc, lastOcc_append, mapear_eq_lastOcc]

/-- Number of data-row (row index ≥ 2) occurrences of a stripped identifier
in a column read starting at 1-based position `i`. -/
def aparicionesAux : Nat → List String → String → Nat
  | _, [], _ => 0
  | i, v :: rest, k =>
      (if i ≠ 1 ∧ pyStrip v = k then 1 else 0) + aparicionesAux (i + 1) rest k

/-- Number of data-row occurrences of a stripped identifier in a column. -/
def apariciones (vals : List String) (k : String) : Nat :=
  aparicionesAux 1 vals k

theorem aparicionesAux_append (a b : List String) :
    ∀ (i : Nat) (k : String),
      aparicionesAux i (a ++ b) k = aparicionesAux i a k + aparicionesAux (i + a.length) b k := by
  induction a with
  | nil => intro i k; simp [aparicionesAux]
  | cons v rest ih =>
      intro i k
      show aparicionesAux i (v :: (rest ++ b)) k = _
      rw [aparicionesAux, ih (i + 1), aparicionesAux]
      have harith : i + 1 + rest.length = i + (v :: rest).length := by
        simp only [List.length_cons]; omega
      rw [harith]
      omega

theorem apariciones_append (a b : List String) (k : String) :
    apariciones (a ++ b) k = apariciones a k + aparicionesAux (1 + a.length) b k := by
  rw [apariciones, aparicionesAux_append, apariciones]

theorem aparicionesAux_eq_zero (b : List String) :
    ∀ (i : Nat) (k : String), (∀ v ∈ b, pyStrip v ≠ k) → aparicionesAux i b k = 0 := by
  induction b with
  | nil => intro i k _; rfl
  | cons v rest ih =>
      intro i k h
      rw [aparicionesAux]
      have h1 : ¬ (i ≠ 1 ∧ pyStrip v = k) := by
        rintro ⟨-, hv⟩; exact h v (List.mem_cons_self v rest) hv
      rw [if_neg h1, ih (i + 1) k (fun w hw => h w (List.mem_cons_of_mem v hw))]

theorem mapear_none_apariciones (vals : List String) (k : String)
    (hk : k ≠ "") (h : mapear_sku_a_fila vals k = none) :
    apariciones vals k = 0 := by
  rw [apariciones]
  rw [mapear_eq_lastOcc] at h
  -- if any data-row occurrence existed, `lastOcc` would be `some`
  suffices haux : ∀ (i : Nat) (b : List String), 1 ≤ i → lastOcc i b k = none →
      aparicionesAux i b k = 0 by
    exact haux 1 vals (le_refl 1) h
  intro i b
  induction b generalizing i with
  | nil => intro _ _; rfl
  | cons v rest ih =>
      intro hi hnone
      rw [lastOcc] at hnone
      cases htail : lastOcc (i + 1) rest k with
      | some r => rw [htail] at hnone; exact absurd hnone (by simp)
      | none =>
          rw [htail] at hnone
          have hnone' :
              (if i ≠ 1 ∧ pyStrip v = k ∧ k ≠ "" then some i else (none : Option Nat)) =
                none := hnone
          rw [aparicionesAux]
          by_cases hcell : i ≠ 1 ∧ pyStrip v = k
          · exact absurd hnone' (by rw [if_pos ⟨hcell.1, hcell.2, hk⟩]; simp)
          · rw [if_neg hcell, ih (i + 1) (by omega) htail]

/-! ### Cell access lemmas -/

theorem getD_append_replicate {α : Type} (l : List α) (n k : Nat) (d : α) :
    (l ++ List.replicate k d).getD n d = l.getD n d := by
  rw [List.getD_eq_getElem?_getD, List.getD_eq_getElem?_getD, List.getElem?_append]
  by_cases h : n < l.length
  · rw [if_pos h]
  · rw [if_neg h, List.getElem?_replicate, List.getElem?_eq_none (by omega)]
    by_cases h2 : n - l.length < k
    · rw [if_pos h2]
      rfl
    · rw [if_neg h2]

theorem getD_set {α : Type} (l : List α) (n m : Nat) (a d : α) :
    (l.set n a).getD m d = if m = n ∧ n < l.length then a else l.getD m d := by
  rw [List.getD_eq_getElem?_getD, List.getD_eq_getElem?_getD, List.getElem?_set]
  by_cases h : n = m
  · subst h
    by_cases h2 : n < l.length
    · rw [if_pos rfl, if_pos h2, if_pos ⟨rfl, h2⟩]; rfl
    · rw [if_pos rfl, if_neg h2, if_neg (fun hc => h2 hc.2),
        List.getElem?_eq_none (by omega)]
  · rw [if_neg h, if_neg (fun hc => h hc.1.symm)]

theorem length_setCell (s : Sheet) (r c : Nat) (v : String) :
    (setCell s r c v).length = max s.length r := by
  simp only [setCell, List.length_set, List.length_append, List.length_replicate]
  omega

theorem setCell_inbounds (s : Sheet) (r c : Nat) (v : String) (hrs : r ≤ s.length) :
    setCell s r c v = s.set (r - 1) (setRowCell (s.getD (r - 1) []) c v) := by
  simp only [setCell]
  have h0 : r - s.length = 0 := by omega
  rw [h0, List.replicate_zero, List.append_nil]

theorem getRowCell_setRowCell (row : List String) (c c' : Nat) (v : String)
    (hc : 1 ≤ c) (hc' : 1 ≤ c') :
    getRowCell (setRowCell row c v) c' = if c' = c then v else getRowCell row c' := by
  rw [getRowCell, setRowCell, getD_set]
  by_cases h : c' = c
  · subst h
    have hlen : c' - 1 < (row ++ List.replicate (c' - row.length) "").length := by
      simp only [List.length_append, List.length_replicate]; omega
    rw [if_pos ⟨rfl, hlen⟩, if_pos rfl]
  · have hne : ¬ (c' - 1 = c - 1 ∧ c - 1 < (row ++ List.replicate (c - row.length) "").length) := by
      rintro ⟨h1, -⟩; omega
    rw [if_neg hne, if_neg h, getRowCell, getD_append_replicate]

theorem getCell_setCell (s : Sheet) (r c r' c' : Nat) (v : String)
    (hr : 1 ≤ r) (hc : 1 ≤ c) (hr' : 1 ≤ r') (hc' : 1 ≤ c') :
    getCell (setCell s r c v) r' c' = if r' = r ∧ c' = c then v else getCell s r' c' := by
  simp only [setCell, getCell]
  rw [getD_set]
  by_cases h : r' = r
  · subst h
    have hlen : r' - 1 < (s ++ List.replicate (r' - s.length) ([] : List String)).length := by
      simp only [List.length_append, List.length_replicate]; omega
    rw [if_pos ⟨rfl, hlen⟩, getRowCell_setRowCell _ _ _ _ hc hc', getD_append_replicate]
    by_cases h2 : c' = c
    · rw [if_pos h2, if_pos ⟨rfl, h2⟩]
    · rw [if_neg h2, if_neg (fun hx => h2 hx.2)]
  · have hne : ¬ (r' - 1 = r - 1 ∧
        r - 1 < (s ++ List.replicate (r - s.length) ([] : List String)).length) := by
      rintro ⟨h1, -⟩; omega
    rw [if_neg hne, if_neg (fun hx => h hx.1), getD_append_replicate]

theorem getCell_batch_update_notin (us : List Update) :
    ∀ (s : Sheet) (r c : Nat), 1 ≤ r → 1 ≤ c →
      (∀ u ∈ us, 1 ≤ u.1 ∧ 1 ≤ u.2.1) →
      (∀ u ∈ us, ¬ (u.1 = r ∧ u.2.1 = c)) →
      getCell (batch_update s us) r c = getCell s r c := by
  induction us with
  | nil => intro s r c _ _ _ _; rfl
  | cons u rest ih =>
      intro s r c hr hc hok hno
      show getCell (batch_update (setCell s u.1 u.2.1 u.2.2) rest) r c = _
      rw [ih _ r c hr hc (fun w hw => hok w (List.mem_cons_of_mem u hw))
          (fun w hw => hno w (List.mem_cons_of_mem u hw)),
        getCell_setCell _ _ _ _ _ _ (hok u (List.mem_cons_self u rest)).1
          (hok u (List.mem_cons_self u rest)).2 hr hc]
      rw [if_neg]
      rintro ⟨h1, h2⟩
      exact hno u (List.mem_cons_self u rest) ⟨h1.symm, h2.symm⟩

theorem getCell_batch_update_const (us : List Update) :
    ∀ (s : Sheet) (r c : Nat) (v : String), 1 ≤ r → 1 ≤ c →
      (∀ u ∈ us, 1 ≤ u.1 ∧ 1 ≤ u.2.1) →
      (∀ u ∈ us, (u.1 = r ∧ u.2.1 = c) → u.2.2 = v) →
      getCell s r c = v →
      getCell (batch_update s us) r c = v := by
  induction us with
  | nil => intro s r c v _ _ _ _ h; exact h
  | cons u rest ih =>
      intro s r c v hr hc hok hval hcur
      show getCell (batch_update (setCell s u.1 u.2.1 u.2.2) rest) r c = v
      apply ih _ r c v hr hc (fun w hw => hok w (List.mem_cons_of_mem u hw))
        (fun w hw => hval w (List.mem_cons_of_mem u hw))
      rw [getCell_setCell _ _ _ _ _ _ (hok u (List.mem_cons_self u rest)).1
        (hok u (List.mem_cons_self u rest)).2 hr hc]
      by_cases h : r = u.1 ∧ c = u.2.1
      · rw [if_pos h]
        exact hval u (List.mem_cons_self u rest) ⟨h.1.symm, h.2.symm⟩
      · rw [if_neg h]; exact hcur

theorem getCell_batch_update_mem (us : List Update) :
    ∀ (s : Sheet) (r c : Nat) (v : String), 1 ≤ r → 1 ≤ c →
      (∀ u ∈ us, 1 ≤ u.1 ∧ 1 ≤ u.2.1) →
      (r, c, v) ∈ us →
      (∀ u ∈ us, (u.1 = r ∧ u.2.1 = c) → u.2.2 = v) →
      getCell (batch_update s us) r c = v := by
  induction us with
  | nil => intro s r c v _ _ _ hmem; simp at hmem
  | cons u rest ih =>
      intro s r c v hr hc hok hmem hval
      show getCell (batch_update (setCell s u.1 u.2.1 u.2.2) rest) r c = v
      rcases List.mem_cons.mp hmem with heq | htail
      · subst heq
        apply getCell_batch_update_const rest _ r c v hr hc
          (fun w hw => hok w (List.mem_cons_of_mem _ hw))
          (fun w hw => hval w (List.mem_cons_of_mem _ hw))
        rw [getCell_setCell _ _ _ _ _ _ hr hc hr hc, if_pos ⟨rfl, rfl⟩]
      · exact ih _ r c v hr hc (fun w hw => hok w (List.mem_cons_of_mem u hw)) htail
          (fun w hw => hval w (List.mem_cons_of_mem u hw))

theorem length_batch_update (us : List Update) :
    ∀ (s : Sheet), (∀ u ∈ us, u.1 ≤ s.length) →
      (batch_update s us).length = s.length := by
  induction us with
  | nil => intro s _; rfl
  | cons u rest ih =>
      intro s hok
      show (batch_update (setCell s u.1 u.2.1 u.2.2) rest).length = s.length
      have hlen : (setCell s u.1 u.2.1 u.2.2).length = s.length := by
        rw [length_setCell]
        have := hok u (List.mem_cons_self u rest)
        omega
      rw [ih _ (fun w hw => by rw [hlen]; exact hok w (List.mem_cons_of_mem u hw)), hlen]

/-! ### Column extraction lemmas -/

theorem length_col_values (s : Sheet) (c : Nat) : (col_values s c).length = s.length :=
  List.length_map s _

theorem col_values_append (s t : Sheet) (c : Nat) :
    col_values (s ++ t) c = col_values s c ++ col_values t c :=
  List.map_append _ s t

theorem getCell_eq_col_values (s : Sheet) (r c : Nat) :
    getCell s r c = (col_values s c).getD (r - 1) "" := by
  rw [getCell, col_values, List.getD_eq_getElem?_getD, List.getD_eq_getElem?_getD,
    List.getElem?_map]
  cases h : s[r - 1]? with
  | none => rfl
  | some row => rfl

theorem col_values_setCell (s : Sheet) (r c c' : Nat) (v : String)
    (hr : 1 ≤ r) (hrs : r ≤ s.length) (hc : 1 ≤ c) (hc' : 1 ≤ c') (hne : c' ≠ c) :
    col_values (setCell s r c v) c' = col_values s c' := by
  rw [setCell_inbounds s r c v hrs]
  apply List.ext_getElem?
  intro n
  rw [col_values, col_values, List.getElem?_map, List.getElem?_map, List.getElem?_set]
  by_cases h : r - 1 = n
  · subst h
    have hlt : r - 1 < s.length := by omega
    have hrow : s[r - 1]? = some s[r - 1] := List.getElem?_eq_getElem hlt
    have hgetD : s.getD (r - 1) [] = s[r - 1] := by
      rw [List.getD_eq_getElem?_getD, hrow]
      rfl
    rw [if_pos rfl, if_pos hlt, hrow, hgetD, Option.map_some', Option.map_some',
      getRowCell_setRowCell _ _ _ _ hc hc', if_neg hne]
  · rw [if_neg h]

theorem col_values_batch_update (us : List Update) :
    ∀ (s : Sheet) (c' : Nat), 1 ≤ c' →
      (∀ u ∈ us, 1 ≤ u.1 ∧ u.1 ≤ s.length ∧ 1 ≤ u.2.1 ∧ u.2.1 ≠ c') →
      col_values (batch_update s us) c' = col_values s c' := by
  induction us with
  | nil => intro s c' _ _; rfl
  | cons u rest ih =>
      intro s c' hc' hok
      show col_values (batch_update (setCell s u.1 u.2.1 u.2.2) rest) c' = _
      obtain ⟨h1, h2, h3, h4⟩ := hok u (List.mem_cons_self u rest)
      have hlen : (setCell s u.1 u.2.1 u.2.2).length = s.length := by
        rw [length_setCell]; omega
      rw [ih _ c' hc' (fun w hw => by
        obtain ⟨g1, g2, g3, g4⟩ := hok w (List.mem_cons_of_mem u hw)
        exact ⟨g1, by rw [hlen]; exact g2, g3, g4⟩)]
      exact col_values_setCell s u.1 u.2.1 c' u.2.2 h1 h2 h3 hc' (fun hx => h4 hx.symm)

/-! ## Unit converter (`precio_por_kg`, scraper.py lines 229-239 and
scraper_improved.py lines 139-149) -/

/-- Python 3 `round` to an integer: round half to even.  The Python code
divides exactly representable spreadsheet numbers, modelled here on exact
rationals. -/
def pyRound (q : ℚ) : ℤ :=
  let n := ⌊q⌋
  let frac := q - n
  if frac < 1/2 then n
  else if 1/2 < frac then n + 1
  else if n % 2 = 0 then n else n + 1

/-- `precio_por_kg`: `None` unless both inputs are present and the weight is
positive, else `round(precio / peso_gr * 1000)`. -/
def precio_por_kg (precio : Option ℤ) (peso_gr : Option ℚ) : Option ℤ :=
  match precio, peso_gr with
  | none, _ => none
  | _, none => none
  | some p, some w => if w ≤ 0 then none else some (pyRound ((p : ℚ) / w * 1000))

/-! ## Price parsing (scraper_improved.py lines 97-159) -/

/-- Character class `[\d\.]` of the price regexes. -/
def isDigitOrDot (c : Char) : Bool :=
  c.isDigit || c = '.'

/-- Character class `[\d\.,]` of the price-per-kg regex. -/
def isDigitDotComma (c : Char) : Bool :=
  c.isDigit || c = '.' || c = ','

/-- `\s*([\d\.]+)` at the head of a suffix: skip whitespace, then take the
greedy digit-or-dot run (empty when the regex would fail to match here). -/
def grupoNumerico (l : List Char) : List Char :=
  (l.dropWhile pyIsSpace).takeWhile isDigitOrDot

/-- Leftmost match of `\$\s*([\d\.]+)`: the group of the first `$` followed
(after whitespace) by at least one digit or dot. -/
def searchDollarNum : List Char → Option (List Char)
  | [] => none
  | c :: rest =>
      if c = '$' then
        let grp := grupoNumerico rest
        if grp.isEmpty then searchDollarNum rest else some grp
      else searchDollarNum rest

/-- Leftmost match of `CLP\s*([\d\.]+)` with `re.IGNORECASE`. -/
def searchClpNum : List Char → Option (List Char)
  | [] => none
  | c :: rest =>
      if pyLowerChar c = 'c' ∧ (rest.map pyLowerChar).take 2 = ['l', 'p'] then
        let grp := grupoNumerico (rest.drop 2)
        if grp.isEmpty then searchClpNum rest else some grp
      else searchClpNum rest

/-- One regex of `PRECIO_REGEXES`: on a match, strip `.` and `,` from the
group and parse if all digits remain; otherwise fall through. -/
def tryPattern (search : List Char → Option (List Char)) (t : List Char) : Option ℤ :=
  match search t with
  | none => none
  | some grp =>
      let bruto := grp.filter (fun c => ¬ (c = '.' ∨ c = ','))
      if pyIsdigit bruto then some (parseDigits bruto) else none

namespace Improved

/-- `extraer_precio` (scraper_improved.py lines 115-124): strip the text, try
the `$`-prefixed pattern then the `CLP`-prefixed pattern. -/
def extraer_precio (texto : String) : Option ℤ :=
  let t := pyStripList texto.data
  match tryPattern searchDollarNum t with
  | some v => some v
  | none => tryPattern searchClpNum t

/-- `PALABRAS_EXCLUIR` (scraper_improved.py line 102). -/
def PALABRAS_EXCLUIR : List String :=
  ["prime", "paga", "antes", "suscríbete", "suscribete"]

/-- `es_precio_valido` (scraper_improved.py lines 127-136): lowercase, demand
a currency indicator, reject any excluded word and the `antes`/`normal`
prefixes. -/
def es_precio_valido (txt : String) : Bool :=
  let t := pyLower txt
  if !(pyIn "$" t || pyIn "clp" t) then false
  else if PALABRAS_EXCLUIR.any (fun p => pyIn p t) then false
  else if pyStartswith "antes" t || pyStartswith "normal" t || pyStartswith "precio normal" t then
    false
  else true

/-- Leftmost char-list match of `PRECIO_POR_KG_REGEX` at a fixed start:
optional `$`, whitespace, the `[\d\.,]+` group, whitespace, `x` or `/`,
whitespace, `kg` (case-insensitive). -/
def matchKgAt (l : List Char) : Option (List Char) :=
  let l1 := match l with
    | c :: r => if c = '$' then r else c :: r
    | [] => []
  let l2 := l1.dropWhile pyIsSpace
  let grp := l2.takeWhile isDigitDotComma
  if grp.isEmpty then none
  else
    match (l2.drop grp.length).dropWhile pyIsSpace with
    | c :: l4 =>
        if c = 'x' ∨ c = 'X' ∨ c = '/' then
          match l4.dropWhile pyIsSpace with
          | k :: g :: _ =>
              if (k = 'k' ∨ k = 'K') ∧ (g = 'g' ∨ g = 'G') then some grp else none
          | _ => none
        else none
    | [] => none

/-- Leftmost match of `PRECIO_POR_KG_REGEX` over the whole fragment. -/
def searchKg : List Char → Option (List Char)
  | [] => none
  | c :: rest =>
      match matchKgAt (c :: rest) with
      | some grp => some grp
      | none => searchKg rest

/-- `extraer_precio_por_kg` (scraper_improved.py lines 152-159). -/
def extraer_precio_por_kg (texto : String) : Option ℤ :=
  match searchKg texto.data with
  | none => none
  | some grp =>
      let valor := grp.filter (fun c => ¬ (c = '.' ∨ c = ','))
      if pyIsdigit valor then some (parseDigits valor) else none

/-- Selection loop of `encontrar_precios_en_dom` (scraper_improved.py lines
219-236), carrying the current unit price and per-kg price through the
fragments; the loop breaks once both are found. -/
def encontrar_aux : List String → Option ℤ → Option ℤ → Option ℤ × Option ℤ
  | [], precio_unitario, precio_kg => (precio_unitario, precio_kg)
  | t :: rest, precio_unitario, precio_kg =>
      let precio_kg2 :=
        match precio_kg with
        | some x => some x
        | none =>
            match extraer_precio_por_kg t with
            | some pk => if 0 < pk then some pk else none
            | none => none
      let precio_unitario2 :=
        match precio_unitario with
        | some x => some x
        | none =>
            if es_precio_valido t then
              match extraer_precio t with
              | some p => if 0 < p then some p else none
              | none => none
            else none
      if precio_unitario2.isSome && precio_kg2.isSome then (precio_unitario2, precio_kg2)
      else encontrar_aux rest precio_unitario2 precio_kg2

/-- `encontrar_precios_en_dom` (scraper_improved.py lines 200-237), from the
list of normalized nonempty DOM text fragments down: the Selenium harvest of
the fragments is the external boundary. -/
def encontrar_precios_en_dom (textos : List String) : Option ℤ × Option ℤ :=
  encontrar_aux textos none none

end Improved

namespace Scraper

/-- `PALABRAS_EXCLUIR` (scraper.py lines 128-132). -/
def PALABRAS_EXCLUIR : List String :=
  ["prime", "paga", "antes", "suscríbete", "suscribete",
   "normal", "referencia", "comparar", "ahorra", "descuento",
   "cuotas", "envío", "envio", "despacho", "retiro"]

/-- `es_precio_valido` (scraper.py lines 214-227): demand one of the loose
price indicators and reject only when two or more excluded words occur. -/
def es_precio_valido (txt : String) : Bool :=
  let t := pyLower txt
  if !(["$", "clp", "precio", "valor", "."].any (fun ind => pyIn ind t)) then false
  else if 2 ≤ PALABRAS_EXCLUIR.countP (fun p => pyIn p t) then false
  else true

end Scraper

/-! ## Sheet reconciler -/

/-- Width of a row up to its last nonblank cell (gspread trims trailing
blanks from fetched values). -/
def rtrimWidth (row : List String) : Nat :=
  (row.reverse.dropWhile (fun c => c = "")).length

/-- Maximum populated (nonblank) 1-based column index over the whole sheet;
0 when every cell is blank. -/
def maxPopulatedCol (s : Sheet) : Nat :=
  (s.map rtrimWidth).foldr max 0

/-- Value staged for the historical column: a blank for `None`, the number
for a value (`"" if val is None else val`). -/
def valorCelda : Option ℤ → String
  | none => ""
  | some v => toString v

/-- The SKUs to append: dict keys that are nonblank and unmapped
(`if sku and sku not in sku_to_row`), in dict order. -/
def skus_nuevos (m : String → Option Nat) (dict : List (String × Option ℤ)) : List String :=
  dict.filterMap (fun p => if p.1 ≠ "" ∧ m p.1 = none then some p.1 else none)

/-- `escribir_pweb`'s staged updates (scraper.py lines 644-657 and
scraper_improved.py lines 317-340): one write at `I{row}` (column 9) per
mapped SKU with a non-`None` value; unmapped SKUs and `None`/blank values
are skipped. -/
def pweb_updates (s : Sheet) (dict : List (String × Option ℤ)) : List Update :=
  let sku_to_row := mapear_sku_a_fila (col_values s 2)
  dict.filterMap (fun p =>
    match sku_to_row p.1 with
    | none => none
    | some row =>
        if row = 1 then none
        else match p.2 with
          | none => none
          | some v => some (row, 9, toString v))

/-- `escribir_pweb`: flush the staged live-column writes in one batch. -/
def escribir_pweb (s : Sheet) (dict : List (String × Option ℤ)) : Sheet :=
  batch_update s (pweb_updates s dict)

/-- The value updates of the historical flow: for each dict entry with a
mapped row other than the header, one write into the new date column — the
value, or an explicit blank for `None`. -/
def hist_updates (m : String → Option Nat) (new_col : Nat)
    (dict : List (String × Option ℤ)) : List Update :=
  dict.filterMap (fun p =>
    match m p.1 with
    | none => none
    | some r => if r = 1 then none else some (r, new_col, valorCelda p.2))

/-- Common write phase of `escribir_jumbo_historico` (scraper.py lines
659-692 and scraper_improved.py lines 394-483), after the new column index
has been determined: write the date header at row 1, append one `["", sku]`
row per new SKU, re-resolve the SKU map if anything was appended, then flush
the value writes (scraper_improved.py flushes in chunks of 50, which applies
the same writes in the same order). -/
def hist_apply (s : Sheet) (dict : List (String × Option ℤ)) (fecha : String)
    (new_col : Nat) : Sheet :=
  let sku_to_row := mapear_sku_a_fila (col_values s 2)
  let s1 := setCell s 1 new_col fecha
  let nuevos := skus_nuevos sku_to_row dict
  let s2 := if nuevos.isEmpty then s1 else s1 ++ nuevos.map (fun k => ["", k])
  let sku_to_row2 := if nuevos.isEmpty then sku_to_row else mapear_sku_a_fila (col_values s2 2)
  batch_update s2 (hist_updates sku_to_row2 new_col dict)

namespace Scraper

/-- scraper.py lines 663-667: `get_all_values` returns the used-range
rectangle, so `max(len(r) for r in values)` is the maximum populated column;
an all-blank sheet gives `values = [[""]]`, hence 1. -/
def num_cols (s : Sheet) : Nat :=
  if maxPopulatedCol s = 0 then 1 else maxPopulatedCol s

/-- scraper.py line 668: `num_cols + 1 if num_cols >= COL_FECHAS_INICIA_EN
else COL_FECHAS_INICIA_EN` with `COL_FECHAS_INICIA_EN = 3`. -/
def siguiente_columna_historico (s : Sheet) : Nat :=
  if 3 ≤ num_cols s then num_cols s + 1 else 3

/-- `escribir_jumbo_historico` (scraper.py lines 659-692). -/
def escribir_jumbo_historico (s : Sheet) (dict : List (String × Option ℤ))
    (fecha : String) : Sheet :=
  hist_apply s dict fecha (siguiente_columna_historico s)

end Scraper

namespace Improved

/-- `obtener_siguiente_columna_historico` (scraper_improved.py lines
343-364): `row_values(1)` returns the header row trimmed of trailing blanks,
its length is the last header column with content. -/
def obtener_siguiente_columna_historico (s : Sheet) : Nat :=
  let ultima_col_con_fecha := rtrimWidth (s.headD [])
  if ultima_col_con_fecha < 3 then 3 else ultima_col_con_fecha + 1

/-- `escribir_jumbo_historico` (scraper_improved.py lines 394-483);
`expandir_hoja_si_necesario` only grows the grid and changes no value. -/
def escribir_jumbo_historico (s : Sheet) (dict : List (String × Option ℤ))
    (fecha : String) : Sheet :=
  hist_apply s dict fecha (obtener_siguiente_columna_historico s)

end Improved

/-! ## Orchestrator models.  The browser fetch is the external collaborator:
its outcome for the row enters as a parameter. -/

/-- Outcome of processing one input row: whether a page fetch was attempted,
and what (if anything) was recorded for the row's SKU in the run's result
dict (`none` = no dict entry, `some v` = entry `v`). -/
structure ResultadoFila where
  hizo_fetch : Bool
  registro : Option (Option ℤ)
deriving DecidableEq

namespace Scraper

/-- Row-validity test of scraper.py line 736: `not sku or not url or not
peso_j or float(peso_j) <= 0` (Python's `not 0.0` is true). -/
def fila_invalida (sku url : String) (peso : Option ℚ) : Bool :=
  sku == "" || url == "" ||
    (match peso with
     | none => true
     | some p => decide (p = 0) || decide (p ≤ 0))

/-- Per-row step of scraper.py's `main` loop (lines 729-752): invalid rows
record `None` and skip the fetch; otherwise the fetched price (or its
absence) is converted and recorded. -/
def procesar_fila (sku url : String) (peso : Option ℚ) (precio_fetch : Option ℤ) :
    ResultadoFila :=
  if fila_invalida sku url peso then ⟨false, some none⟩
  else
    ⟨true, some (match precio_fetch with
      | none => none
      | some precio => precio_por_kg (some precio) peso)⟩

/-- Write-back phase of scraper.py's `main` (lines 762-770): `escribir_pweb`
then `escribir_jumbo_historico` with no exception handling, so an error in
the first call aborts the run before the second is attempted.  Arguments
state whether each flow would raise; result: the list of attempted flows in
order, and whether the run raises. -/
def main_actualizaciones (pwebFalla histFalla : Bool) : List String × Bool :=
  if pwebFalla then (["P-web"], true)
  else if histFalla then (["P-web", "Historico"], true)
  else (["P-web", "Historico"], false)

end Scraper

namespace Improved

/-- Python truthiness of the optional weight (`peso_j` in `elif precio_unit
is not None and peso_j`). -/
def peso_truthy : Option ℚ → Bool
  | none => false
  | some p => !(decide (p = 0))

/-- Per-row step of scraper_improved.py's `main` loop (lines 534-564): a
blank SKU is skipped with nothing recorded; a blank URL records `None`
without fetching; otherwise the row is fetched regardless of the weight, a
directly-found per-kg price is recorded as-is, else the unit price is
converted when the weight is truthy, else `None`. -/
def procesar_fila (sku url : String) (peso : Option ℚ)
    (fetch : Option ℤ × Option ℤ) : ResultadoFila :=
  if sku == "" then ⟨false, none⟩
  else if url == "" then ⟨false, some none⟩
  else
    ⟨true, some (match fetch.2 with
      | some precio_kg_encontrado => some precio_kg_encontrado
      | none =>
          match fetch.1 with
          | some precio_unit =>
              if peso_truthy peso then precio_por_kg (some precio_unit) peso else none
          | none => none)⟩

/-- Write-back phase of scraper_improved.py's `main` (lines 581-629): each
flow runs in its own `try`, both are always attempted, and a `RuntimeError`
is raised at the end iff either failed. -/
def main_actualizaciones (pwebFalla histFalla : Bool) : List String × Bool :=
  let intentos := ["P-web", "Historico"]
  let actualizado_pweb := !pwebFalla
  let actualizado_historico := !histFalla
  (intentos, !(actualizado_pweb && actualizado_historico))

end Improved

/-! ## Claim theorems -/

theorem pyRound_intCast (n : ℤ) : pyRound ((n : ℚ)) = n := by
  simp only [pyRound, Int.floor_intCast, sub_self]
  rw [if_pos (by norm_num)]

/-- C5: `precio_por_kg` returns `None` exactly when the price is absent, the
weight is absent, or the weight is nonpositive (a defined no-result case,
not an error); with both inputs present and a positive weight it returns
`round(precio / peso * 1000)` under the single rounding rule `pyRound`
(round half to even, Python 3's `round`). -/
theorem precio_por_kg_contrato :
    ∀ (p : Option ℤ) (w : Option ℚ),
      (precio_por_kg p w = none ↔ p = none ∨ w = none ∨ ∃ x, w = some x ∧ x ≤ 0) ∧
      (∀ pv wv, p = some pv → w = some wv → 0 < wv →
        precio_por_kg p w = some (pyRound ((pv : ℚ) / wv * 1000))) := by
  intro p w
  constructor
  · match p, w with
    | none, none => simp [precio_por_kg]
    | none, some wv => simp [precio_por_kg]
    | some pv, none => simp [precio_por_kg]
    | some pv, some wv =>
        simp only [precio_por_kg]
        by_cases h : wv ≤ 0
        · rw [if_pos h]
          exact ⟨fun _ => Or.inr (Or.inr ⟨wv, rfl, h⟩), fun _ => rfl⟩
        · rw [if_neg h]
          constructor
          · intro hcontra
            exact absurd hcontra (by simp)
          · rintro (hc | hc | ⟨x, hx, hxle⟩)
            · exact absurd hc (by simp)
            · exact absurd hc (by simp)
            · obtain rfl : wv = x := by injection hx
              exact absurd hxle h
  · intro pv wv hp hw hpos
    subst hp; subst hw
    simp only [precio_por_kg]
    rw [if_neg (not_le.mpr hpos)]

/-- C6: the fragment "$ 7.990" parses to the unit price 7990, and with a
declared weight of 500 grams the computed metric is 15980. -/
theorem escenario_7990_gramos_500 :
    Improved.extraer_precio "$ 7.990" = some 7990 ∧
      precio_por_kg (some 7990) (some 500) = some 15980 := by
  constructor
  · decide
  · simp only [precio_por_kg]
    rw [if_neg (by norm_num : ¬ (500 : ℚ) ≤ 0)]
    have harith : ((7990 : ℤ) : ℚ) / 500 * 1000 = ((15980 : ℤ) : ℚ) := by norm_num
    rw [harith, pyRound_intCast]

/-- C2 counterexample: in scraper.py's `main` a failing live-column update
aborts the run before the historical flow is attempted, so the claimed
"still attempts the other flow" is false there. -/
theorem main_scraper_omite_historico :
    "Historico" ∉ (Scraper.main_actualizaciones true false).1 := by decide

/-- C2 (amended): scraper_improved.py's `main` always attempts both output
flows and raises exactly when either failed, after both attempts; scraper.py's
`main` attempts the historical flow only when the live flow succeeded, though
a failure of either still fails the run. -/
theorem main_actualizaciones_independencia :
    ∀ pw hs : Bool,
      (Improved.main_actualizaciones pw hs).1 = ["P-web", "Historico"] ∧
      ((Improved.main_actualizaciones pw hs).2 = (pw || hs)) ∧
      (("Historico" ∈ (Scraper.main_actualizaciones pw hs).1) ↔ pw = false) ∧
      ((Scraper.main_actualizaciones pw hs).2 = (pw || hs)) := by
  decide

/-- C7 counterexample: scraper_improved.py's row loop does not validate the
weight before fetching — a row with weight 0 and a valid SKU and URL is still
fetched. -/
theorem procesar_fila_v2_descarga_con_peso_cero :
    (Improved.procesar_fila "A1" "http://x" (some 0) (none, none)).hizo_fetch = true := by
  decide

/-- C7 (amended): in scraper.py a row with a blank SKU or URL, or a missing or
nonpositive weight, is skipped before any fetch with `None` recorded; in
scraper_improved.py only a blank SKU (skipped, nothing recorded) or a blank
URL (`None` recorded) prevents the fetch, and a row with any weight is
fetched once SKU and URL are present. -/
theorem procesar_fila_validacion :
    ∀ (sku url : String) (peso : Option ℚ) (pf : Option ℤ) (ff : Option ℤ × Option ℤ),
      ((sku = "" ∨ url = "" ∨ peso = none ∨ (∃ p, peso = some p ∧ p ≤ 0)) →
        Scraper.procesar_fila sku url peso pf = ⟨false, some none⟩) ∧
      (sku = "" → Improved.procesar_fila sku url peso ff = ⟨false, none⟩) ∧
      (sku ≠ "" → url = "" → Improved.procesar_fila sku url peso ff = ⟨false, some none⟩) ∧
      (sku ≠ "" → url ≠ "" → (Improved.procesar_fila sku url peso ff).hizo_fetch = true) := by
  intro sku url peso pf ff
  refine ⟨?_, ?_, ?_, ?_⟩
  · intro h
    have hinv : Scraper.fila_invalida sku url peso = true := by
      rcases h with h | h | h | ⟨q, hq, hqle⟩
      · simp [Scraper.fila_invalida, h]
      · simp [Scraper.fila_invalida, h]
      · simp [Scraper.fila_invalida, h]
      · subst hq
        simp [Scraper.fila_invalida, hqle]
    unfold Scraper.procesar_fila
    rw [if_pos hinv]
  · intro h
    subst h
    unfold Improved.procesar_fila
    rw [if_pos (by decide)]
  · intro hs hu
    subst hu
    unfold Improved.procesar_fila
    rw [if_neg (by simpa using hs), if_pos (by decide)]
  · intro hs hu
    unfold Improved.procesar_fila
    rw [if_neg (by simpa using hs), if_neg (by simpa using hu)]

/-- C8 counterexample: scraper.py's `es_precio_valido` accepts a fragment
containing "prime" (it rejects only at two or more excluded terms), so the
claimed exclusion does not hold for that file. -/
theorem es_precio_valido_scraper_acepta_prime :
    Scraper.es_precio_valido "$ 100 prime" = true ∧
      pyIn "prime" (pyLower "$ 100 prime") = true := by decide

/-- C8 (amended): in scraper_improved.py any fragment containing one of the
excluded terms case-insensitively (prime, paga, antes, suscríbete,
suscribete), or whose lowercase form starts with "normal", fails
`es_precio_valido`; the filter is a function of the lowercased fragment, so
"PRIME" is excluded exactly as "prime".  scraper.py's `es_precio_valido`
rejects only at two or more excluded terms. -/
theorem es_precio_valido_exclusiones :
    ∀ t : String,
      ((Improved.PALABRAS_EXCLUIR.any (fun p => pyIn p (pyLower t)) = true ∨
          pyStartswith "normal" (pyLower t) = true) →
        Improved.es_precio_valido t = false) ∧
      (∀ u : String, pyLower t = pyLower u →
        Improved.es_precio_valido t = Improved.es_precio_valido u) ∧
      (2 ≤ Scraper.PALABRAS_EXCLUIR.countP (fun p => pyIn p (pyLower t)) →
        Scraper.es_precio_valido t = false) := by
  intro t
  refine ⟨?_, ?_, ?_⟩
  · intro h
    simp only [Improved.es_precio_valido]
    rcases h with h | h
    · simp [h]
    · simp [h]
  · intro u h
    unfold Improved.es_precio_valido
    rw [h]
  · intro h
    simp only [Scraper.es_precio_valido]
    simp [h]

/-- C10: `mapear_sku_a_fila` maps a SKU to `some i` exactly when `i` is a
data-row index (row 1, the header, is excluded), the SKU is nonblank, the
stripped cell at row `i` equals the SKU, and no later row holds it — so a
duplicated identifier resolves to its last (largest) row index, the one both
reconciler flows write into. -/
theorem mapear_sku_a_fila_ultima_ocurrencia :
    ∀ (vals : List String) (sku : String) (i : Nat),
      mapear_sku_a_fila vals sku = some i ↔
        (2 ≤ i ∧ i ≤ vals.length ∧ sku ≠ "" ∧
          (∃ v, vals.get? (i - 1) = some v ∧ pyStrip v = sku) ∧
          ∀ j w, i < j → j ≤ vals.length → vals.get? (j - 1) = some w →
            pyStrip w ≠ sku) := by
  intro vals sku i
  constructor
  · intro h
    obtain ⟨h1, h2, h3, hv⟩ := mapear_some vals sku i h
    exact ⟨h1, h2, h3, hv, fun j w hij hj hw => mapear_last vals sku i j h hij hj w hw⟩
  · rintro ⟨h1, h2, h3, ⟨v, hv, hvs⟩, hmax⟩
    obtain ⟨r, hr⟩ := mapear_complete vals sku v i h1 h2 hv hvs h3
    obtain ⟨g1, g2, -, w, hw, hws⟩ := mapear_some vals sku r hr
    rcases lt_trichotomy r i with hlt | heq | hgt
    · exact absurd hvs (mapear_last vals sku r i hr hlt h2 v hv)
    · rw [heq] at hr
      exact hr
    · exact absurd hws (hmax r w hgt g2 hw)

/-! ## C9: first-match selection -/

/-- Spec-side per-fragment unit-price choice: a fragment contributes its
parsed price when it passes `es_precio_valido` and parses to a positive
value. -/
def eleccion_unitaria (t : String) : Option ℤ :=
  if Improved.es_precio_valido t then
    match Improved.extraer_precio t with
    | some p => if 0 < p then some p else none
    | none => none
  else none

/-- Spec-side per-fragment per-kg choice. -/
def eleccion_kg (t : String) : Option ℤ :=
  match Improved.extraer_precio_por_kg t with
  | some pk => if 0 < pk then some pk else none
  | none => none

/-- Spec-side selection: the first fragment in DOM order contributing a
choice, independently for the unit price and the per-kg price. -/
def primer_precio_unitario (textos : List String) : Option ℤ :=
  (textos.filterMap eleccion_unitaria).head?

/-- Spec-side first per-kg choice. -/
def primer_precio_kg (textos : List String) : Option ℤ :=
  (textos.filterMap eleccion_kg).head?

theorem head?_filterMap_cons {α β : Type} (f : α → Option β) (a : α) (l : List α) :
    (List.filterMap f (a :: l)).head? =
      match f a with
      | some b => some b
      | none => (List.filterMap f l).head? := by
  rw [List.filterMap_cons]
  cases f a <;> simp

theorem encontrar_aux_cons (t : String) (rest : List String) (pu pk : Option ℤ) :
    Improved.encontrar_aux (t :: rest) pu pk =
      if ((match pu with | some x => some x | none => eleccion_unitaria t).isSome &&
          (match pk with | some x => some x | none => eleccion_kg t).isSome) then
        ((match pu with | some x => some x | none => eleccion_unitaria t),
         (match pk with | some x => some x | none => eleccion_kg t))
      else
        Improved.encontrar_aux rest
          (match pu with | some x => some x | none => eleccion_unitaria t)
          (match pk with | some x => some x | none => eleccion_kg t) := rfl

theorem encontrar_aux_spec :
    ∀ (textos : List String) (pu pk : Option ℤ),
      Improved.encontrar_aux textos pu pk =
        ((match pu with
          | some x => some x
          | none => primer_precio_unitario textos),
         (match pk with
          | some x => some x
          | none => primer_precio_kg textos)) := by
  intro textos
  induction textos with
  | nil =>
      intro pu pk
      cases pu <;> cases pk <;> rfl
  | cons t rest ih =>
      intro pu pk
      rw [encontrar_aux_cons]
      simp only [primer_precio_unitario, primer_precio_kg, head?_filterMap_cons]
      cases pu with
      | some a =>
          cases pk with
          | some b => rfl
          | none =>
              cases hk : eleccion_kg t with
              | some b => simp [hk]
              | none => simp [hk, ih (some a) none, primer_precio_kg]
      | none =>
          cases pk with
          | some b =>
              cases hu : eleccion_unitaria t with
              | some a => simp [hu]
              | none => simp [hu, ih none (some b), primer_precio_unitario]
          | none =>
              cases hu : eleccion_unitaria t with
              | some a =>
                  cases hk : eleccion_kg t with
                  | some b => simp [hu, hk]
                  | none =>
                      simp [hu, hk, ih (some a) none, primer_precio_kg]
              | none =>
                  cases hk : eleccion_kg t with
                  | some b =>
                      simp [hu, hk, ih none (some b), primer_precio_unitario]
                  | none =>
                      simp [hu, hk, ih none none, primer_precio_unitario, primer_precio_kg]

/-- C9 counterexample: in the fragment list `["$ zzz", "$ 200"]` the first
fragment passing the validity filter is "$ zzz", whose parser result is
`None`, yet the selection returns 200 from the later fragment — the chosen
price is not the parser result of the first filter-passing fragment. -/
theorem encontrar_precios_no_primer_filtrado :
    (Improved.encontrar_precios_en_dom ["$ zzz", "$ 200"]).1 = some 200 ∧
      ["$ zzz", "$ 200"].find? Improved.es_precio_valido = some "$ zzz" ∧
      Improved.extraer_precio "$ zzz" = none := by decide

/-- C9 (amended): for scraper_improved.py's `encontrar_precios_en_dom`, the
chosen unit price is the parser result of the first fragment in DOM order
that passes the exclusion and currency filter and yields a positive parser
result, and independently the chosen per-kg value is the first positive
match of the per-kg pattern; both are `None` when no fragment qualifies.
(scraper.py's `estrategia_selectores_mejorada` instead ranks candidates by
vertical page position.) -/
theorem encontrar_precios_primer_match :
    ∀ textos : List String,
      Improved.encontrar_precios_en_dom textos =
        (primer_precio_unitario textos, primer_precio_kg textos) := by
  intro textos
  rw [Improved.encontrar_precios_en_dom, encontrar_aux_spec]

/-! ## C1: the live-column flow -/

theorem eq_snd_of_nodup_keys {α β : Type} (l : List (α × β))
    (hn : (l.map Prod.fst).Nodup) (k : α) (a b : β)
    (ha : (k, a) ∈ l) (hb : (k, b) ∈ l) : a = b := by
  induction l with
  | nil => simp at ha
  | cons p rest ih =>
      rw [List.map_cons, List.nodup_cons] at hn
      rcases List.mem_cons.mp ha with ha1 | ha2 <;> rcases List.mem_cons.mp hb with hb1 | hb2
      · rw [← hb1] at ha1
        injection ha1
      · exfalso
        apply hn.1
        rw [← ha1]
        exact List.mem_map.mpr ⟨(k, b), hb2, rfl⟩
      · exfalso
        apply hn.1
        rw [← hb1]
        exact List.mem_map.mpr ⟨(k, a), ha2, rfl⟩
      · exact ih hn.2 ha2 hb2

theorem pweb_updates_mem (s : Sheet) (dict : List (String × Option ℤ)) (u : Update) :
    u ∈ pweb_updates s dict ↔
      ∃ p, p ∈ dict ∧ ∃ v, p.2 = some v ∧
        mapear_sku_a_fila (col_values s 2) p.1 = some u.1 ∧
        u = (u.1, 9, toString v) := by
  have hdef : pweb_updates s dict = dict.filterMap (fun p =>
      match mapear_sku_a_fila (col_values s 2) p.1 with
      | none => none
      | some row =>
          if row = 1 then none
          else match p.2 with
            | none => none
            | some v => some (row, 9, toString v)) := rfl
  rw [hdef, List.mem_filterMap]
  constructor
  · rintro ⟨p, hp, hf⟩
    cases hm : mapear_sku_a_fila (col_values s 2) p.1 with
    | none =>
        rw [hm] at hf
        exact absurd hf (by simp)
    | some row =>
        rw [hm] at hf
        have hf2 : (if row = 1 then none
            else match p.2 with
              | none => none
              | some v => some (row, 9, toString v)) = some u := hf
        by_cases hrow : row = 1
        · rw [if_pos hrow] at hf2
          exact absurd hf2 (by simp)
        · rw [if_neg hrow] at hf2
          cases hv : p.2 with
          | none =>
              rw [hv] at hf2
              exact absurd hf2 (by simp)
          | some v =>
              rw [hv] at hf2
              have hf3 : some ((row : Nat), (9 : Nat), toString v) = some u := hf2
              obtain rfl : (row, 9, toString v) = u := by injection hf3
              exact ⟨p, hp, v, hv, hm, rfl⟩
  · rintro ⟨p, hp, v, hv, hm, hu⟩
    refine ⟨p, hp, ?_⟩
    obtain ⟨h2, -, -, -⟩ := mapear_some _ _ _ hm
    rw [hm]
    show (if u.1 = 1 then none
        else match p.2 with
          | none => none
          | some v => some (u.1, 9, toString v)) = some u
    rw [if_neg (by omega), hv, hu]

/-- C1: for every identifier whose ResultValue is `None`, `escribir_pweb`
stages no write for that identifier's row, so its live-column cell (column I
= 9) keeps its pre-run value; every staged write targets a mapped
identifier's row (unmapped identifiers are skipped), and the flow appends no
row. -/
theorem escribir_pweb_no_pisa :
    ∀ (s : Sheet) (dict : List (String × Option ℤ)),
      (dict.map Prod.fst).Nodup →
      (∀ sku r, (sku, none) ∈ dict →
          mapear_sku_a_fila (col_values s 2) sku = some r →
          (∀ u ∈ pweb_updates s dict, u.1 ≠ r) ∧
          getCell (escribir_pweb s dict) r 9 = getCell s r 9) ∧
      (∀ u ∈ pweb_updates s dict, ∃ p, p ∈ dict ∧
          mapear_sku_a_fila (col_values s 2) p.1 = some u.1) ∧
      (escribir_pweb s dict).length = s.length := by
  intro s dict hnodup
  have hcoords : ∀ u ∈ pweb_updates s dict, 2 ≤ u.1 ∧ u.1 ≤ s.length ∧ u.2.1 = 9 := by
    intro u hu
    obtain ⟨p, hp, v, hv, hm, hueq⟩ := (pweb_updates_mem s dict u).mp hu
    obtain ⟨h2, hlen, -, -⟩ := mapear_some _ _ _ hm
    rw [length_col_values] at hlen
    exact ⟨h2, hlen, by rw [hueq]⟩
  refine ⟨?_, ?_, ?_⟩
  · intro sku r hskudict hm
    have hnotarget : ∀ u ∈ pweb_updates s dict, u.1 ≠ r := by
      intro u hu hur
      obtain ⟨p, hp, v, hv, hmp, -⟩ := (pweb_updates_mem s dict u).mp hu
      rw [hur] at hmp
      have hkey : p.1 = sku := mapear_inj _ _ _ _ hmp hm
      have hp2 : (sku, some v) ∈ dict := by
        rw [← hkey, ← hv, Prod.mk.eta]
        exact hp
      exact absurd (eq_snd_of_nodup_keys dict hnodup sku none (some v) hskudict hp2)
        (by simp)
    refine ⟨hnotarget, ?_⟩
    obtain ⟨hr2, -, -, -⟩ := mapear_some _ _ _ hm
    show getCell (batch_update s (pweb_updates s dict)) r 9 = getCell s r 9
    apply getCell_batch_update_notin _ s r 9 (by omega) (by omega)
    · intro u hu
      obtain ⟨g1, -, g3⟩ := hcoords u hu
      exact ⟨by omega, by omega⟩
    · intro u hu
      rintro ⟨h1, -⟩
      exact hnotarget u hu h1
  · intro u hu
    obtain ⟨p, hp, v, hv, hm, -⟩ := (pweb_updates_mem s dict u).mp hu
    exact ⟨p, hp, hm⟩
  · show (batch_update s (pweb_updates s dict)).length = s.length
    exact length_batch_update _ s (fun u hu => (hcoords u hu).2.1)

/-- C1 witness: a sheet with header and one data row for SKU "A"; the run
maps "A" to `None` and "B" (unmapped) to 7; the cell `I2` is untouched and
no row is created. -/
theorem escribir_pweb_no_pisa_witness :
    (([("A", (none : Option ℤ)), ("B", some 7)].map Prod.fst).Nodup) ∧
      ((∀ sku r, (sku, (none : Option ℤ)) ∈ [("A", (none : Option ℤ)), ("B", some 7)] →
          mapear_sku_a_fila
            (col_values [["", "SKU"], ["", "A", "x", "", "", "", "", "", "99"]] 2) sku =
            some r →
          (∀ u ∈ pweb_updates [["", "SKU"], ["", "A", "x", "", "", "", "", "", "99"]]
              [("A", (none : Option ℤ)), ("B", some 7)], u.1 ≠ r) ∧
          getCell (escribir_pweb [["", "SKU"], ["", "A", "x", "", "", "", "", "", "99"]]
              [("A", (none : Option ℤ)), ("B", some 7)]) r 9 =
            getCell [["", "SKU"], ["", "A", "x", "", "", "", "", "", "99"]] r 9) ∧
        (∀ u ∈ pweb_updates [["", "SKU"], ["", "A", "x", "", "", "", "", "", "99"]]
            [("A", (none : Option ℤ)), ("B", some 7)], ∃ p,
            p ∈ [("A", (none : Option ℤ)), ("B", some 7)] ∧
            mapear_sku_a_fila
              (col_values [["", "SKU"], ["", "A", "x", "", "", "", "", "", "99"]] 2) p.1 =
              some u.1) ∧
        (escribir_pweb [["", "SKU"], ["", "A", "x", "", "", "", "", "", "99"]]
            [("A", (none : Option ℤ)), ("B", some 7)]).length =
          [["", "SKU"], ["", "A", "x", "", "", "", "", "", "99"]].length) :=
  ⟨by decide,
   escribir_pweb_no_pisa [["", "SKU"], ["", "A", "x", "", "", "", "", "", "99"]]
     [("A", (none : Option ℤ)), ("B", some 7)] (by decide)⟩

/-! ## C3: the historical next-column rule -/

theorem hist_updates_mem (m : String → Option Nat) (nc : Nat)
    (dict : List (String × Option ℤ)) (u : Update) :
    u ∈ hist_updates m nc dict ↔
      ∃ p, p ∈ dict ∧ m p.1 = some u.1 ∧ u.1 ≠ 1 ∧ u = (u.1, nc, valorCelda p.2) := by
  rw [hist_updates, List.mem_filterMap]
  constructor
  · rintro ⟨p, hp, hf⟩
    cases hm : m p.1 with
    | none =>
        rw [hm] at hf
        exact absurd hf (by simp)
    | some r =>
        rw [hm] at hf
        have hf2 : (if r = 1 then none else some (r, nc, valorCelda p.2)) = some u := hf
        by_cases hr : r = 1
        · rw [if_pos hr] at hf2
          exact absurd hf2 (by simp)
        · rw [if_neg hr] at hf2
          obtain rfl : (r, nc, valorCelda p.2) = u := by injection hf2
          exact ⟨p, hp, hm, hr, rfl⟩
  · rintro ⟨p, hp, hm, h1, hu⟩
    refine ⟨p, hp, ?_⟩
    rw [hm]
    show (if u.1 = 1 then none else some (u.1, nc, valorCelda p.2)) = some u
    rw [if_neg h1, hu]

theorem hist_updates_row_bounds (vals : List String) (nc : Nat)
    (dict : List (String × Option ℤ)) :
    ∀ u ∈ hist_updates (mapear_sku_a_fila vals) nc dict,
      2 ≤ u.1 ∧ u.1 ≤ vals.length ∧ u.2.1 = nc := by
  intro u hu
  obtain ⟨p, hp, hm, h1, hu2⟩ := (hist_updates_mem _ _ _ u).mp hu
  obtain ⟨g2, glen, -, -⟩ := mapear_some _ _ _ hm
  exact ⟨g2, glen, by rw [hu2]⟩

theorem getCell_append_left (s t : Sheet) (r c : Nat) (hr : 1 ≤ r) (hrs : r ≤ s.length) :
    getCell (s ++ t) r c = getCell s r c := by
  unfold getCell
  rw [List.getD_eq_getElem?_getD, List.getD_eq_getElem?_getD, List.getElem?_append]
  by_cases h : r - 1 < s.length
  · rw [if_pos h]
  · exfalso
    omega

theorem length_setCell_header (s : Sheet) (nc : Nat) (fecha : String) :
    1 ≤ (setCell s 1 nc fecha).length := by
  rw [length_setCell]
  omega

theorem hist_apply_header (s : Sheet) (dict : List (String × Option ℤ))
    (fecha : String) (nc : Nat) (h3 : 3 ≤ nc) :
    getCell (hist_apply s dict fecha nc) 1 nc = fecha := by
  simp only [hist_apply]
  by_cases hnu : (skus_nuevos (mapear_sku_a_fila (col_values s 2)) dict).isEmpty
  · rw [if_pos hnu, if_pos hnu]
    rw [getCell_batch_update_notin _ _ 1 nc (by omega) (by omega)]
    · rw [getCell_setCell s 1 nc 1 nc fecha (by omega) (by omega) (by omega) (by omega),
        if_pos ⟨rfl, rfl⟩]
    · intro u hu
      obtain ⟨g2, -, g3⟩ := hist_updates_row_bounds _ _ _ u hu
      refine ⟨by omega, ?_⟩
      rw [g3]
      omega
    · intro u hu
      obtain ⟨g2, -, -⟩ := hist_updates_row_bounds _ _ _ u hu
      rintro ⟨h1, -⟩
      omega
  · rw [if_neg hnu, if_neg hnu]
    rw [getCell_batch_update_notin _ _ 1 nc (by omega) (by omega)]
    · rw [getCell_append_left _ _ 1 nc (by omega) (length_setCell_header s nc fecha)]
      rw [getCell_setCell s 1 nc 1 nc fecha (by omega) (by omega) (by omega) (by omega),
        if_pos ⟨rfl, rfl⟩]
    · intro u hu
      obtain ⟨g2, -, g3⟩ := hist_updates_row_bounds _ _ _ u hu
      refine ⟨by omega, ?_⟩
      rw [g3]
      omega
    · intro u hu
      obtain ⟨g2, -, -⟩ := hist_updates_row_bounds _ _ _ u hu
      rintro ⟨h1, -⟩
      omega

theorem siguiente_columna_eq_max (s : Sheet) :
    Scraper.siguiente_columna_historico s = max (maxPopulatedCol s + 1) 3 := by
  unfold Scraper.siguiente_columna_historico Scraper.num_cols
  split_ifs <;> omega

theorem obtener_siguiente_eq_max (s : Sheet) :
    Improved.obtener_siguiente_columna_historico s =
      max (rtrimWidth (s.headD []) + 1) 3 := by
  show (if rtrimWidth (s.headD []) < 3 then 3 else rtrimWidth (s.headD []) + 1) =
    max (rtrimWidth (s.headD []) + 1) 3
  split_ifs <;> omega

/-- C3 counterexample: a historical sheet whose header row is populated only
through column A while a data row is populated through column E has maximum
populated column 5, yet scraper_improved.py's
`obtener_siguiente_columna_historico` (which reads only the header row)
chooses column 3, not 6 = max(5+1, 3). -/
theorem obtener_siguiente_columna_ignora_filas :
    Improved.obtener_siguiente_columna_historico [["x"], ["", "sku1", "", "", "7"]] = 3 ∧
      maxPopulatedCol [["x"], ["", "sku1", "", "", "7"]] = 5 ∧
      (3 : Nat) ≠ max (5 + 1) 3 := by decide

/-- C3 (amended): scraper.py chooses exactly the column after the table's
maximum populated column with a floor at column 3 (so a sheet populated
through column 5 gets column 6); scraper_improved.py applies the same rule to
the header row's last populated column, which agrees whenever the header row
attains the table's maximum (as in tables these flows maintain); and both
variants of `escribir_jumbo_historico` write the run's date into row 1 of
the chosen column. -/
theorem siguiente_columna_historico_regla :
    ∀ (s : Sheet) (dict : List (String × Option ℤ)) (fecha : String),
      Scraper.siguiente_columna_historico s = max (maxPopulatedCol s + 1) 3 ∧
      Improved.obtener_siguiente_columna_historico s =
        max (rtrimWidth (s.headD []) + 1) 3 ∧
      (rtrimWidth (s.headD []) = maxPopulatedCol s →
        Improved.obtener_siguiente_columna_historico s = max (maxPopulatedCol s + 1) 3) ∧
      (maxPopulatedCol s = 5 → Scraper.siguiente_columna_historico s = 6) ∧
      getCell (Scraper.escribir_jumbo_historico s dict fecha) 1
        (Scraper.siguiente_columna_historico s) = fecha ∧
      getCell (Improved.escribir_jumbo_historico s dict fecha) 1
        (Improved.obtener_siguiente_columna_historico s) = fecha := by
  intro s dict fecha
  refine ⟨siguiente_columna_eq_max s, obtener_siguiente_eq_max s, ?_, ?_, ?_, ?_⟩
  · intro h
    rw [obtener_siguiente_eq_max, h]
  · intro h
    rw [siguiente_columna_eq_max, h]
    decide
  · exact hist_apply_header s dict fecha _ (by rw [siguiente_columna_eq_max]; omega)
  · exact hist_apply_header s dict fecha _ (by rw [obtener_siguiente_eq_max]; omega)

/-! ## C4: historical completeness -/

theorem lastOcc_none_of_no_occ (b : List String) (i : Nat) (k : String)
    (h : ∀ v ∈ b, ¬ (pyStrip v = k ∧ k ≠ "")) : lastOcc i b k = none := by
  cases h2 : lastOcc i b k with
  | none => rfl
  | some r =>
      obtain ⟨-, -, -, hk, v, hv, hs⟩ := lastOcc_some b i r k h2
      exact absurd ⟨hs, hk⟩ (h v (List.get?_mem hv))

theorem mapear_append_no_new (base nuevos : List String) (k : String)
    (hnocc : ∀ v ∈ nuevos, ¬ (pyStrip v = k ∧ k ≠ "")) :
    mapear_sku_a_fila (base ++ nuevos) k = mapear_sku_a_fila base k := by
  rw [mapear_append, lastOcc_none_of_no_occ nuevos _ k hnocc]

theorem skus_nuevos_eq_filter (m : String → Option Nat) (dict : List (String × Option ℤ)) :
    skus_nuevos m dict =
      (dict.filter (fun p => decide (p.1 ≠ "" ∧ m p.1 = none))).map Prod.fst := by
  unfold skus_nuevos
  induction dict with
  | nil => rfl
  | cons p rest ih =>
      rw [List.filterMap_cons, List.filter_cons]
      by_cases h : p.1 ≠ "" ∧ m p.1 = none
      · simp [h, ih]
      · simp [if_neg h, h, ih]

theorem skus_nuevos_nodup (m : String → Option Nat) (dict : List (String × Option ℤ))
    (h : (dict.map Prod.fst).Nodup) : (skus_nuevos m dict).Nodup := by
  rw [skus_nuevos_eq_filter]
  exact ((List.filter_sublist dict).map Prod.fst).nodup h

theorem mem_skus_nuevos (m : String → Option Nat) (dict : List (String × Option ℤ))
    (k : String) :
    k ∈ skus_nuevos m dict ↔ ∃ p, p ∈ dict ∧ p.1 = k ∧ k ≠ "" ∧ m k = none := by
  unfold skus_nuevos
  rw [List.mem_filterMap]
  constructor
  · rintro ⟨p, hp, hf⟩
    by_cases h : p.1 ≠ "" ∧ m p.1 = none
    · rw [if_pos h] at hf
      injection hf with hf
      subst hf
      exact ⟨p, hp, rfl, h.1, h.2⟩
    · rw [if_neg h] at hf
      exact absurd hf (by simp)
  · rintro ⟨p, hp, hpk, hk, hm⟩
    subst hpk
    exact ⟨p, hp, by rw [if_pos ⟨hk, hm⟩]⟩

theorem aparicionesAux_of_stripped (b : List String) :
    ∀ (i : Nat) (k : String), 2 ≤ i → (∀ v ∈ b, pyStrip v = v) →
      aparicionesAux i b k = b.count k := by
  induction b with
  | nil => intro i k _ _; rfl
  | cons v rest ih =>
      intro i k hi hstr
      rw [aparicionesAux, List.count_cons,
        ih (i + 1) k (by omega) (fun w hw => hstr w (List.mem_cons_of_mem v hw))]
      have hv : pyStrip v = v := hstr v (List.mem_cons_self v rest)
      by_cases hvk : v = k
      · rw [if_pos ⟨by omega, by rw [hv, hvk]⟩, if_pos (by simp [hvk])]
        omega
      · rw [if_neg (by rintro ⟨-, h2⟩; exact hvk (by rw [← hv, h2])),
          if_neg (by simpa using hvk)]
        omega

theorem hist_apply_completo (s : Sheet) (dict : List (String × Option ℤ)) (fecha : String)
    (nc : Nat) (h3 : 3 ≤ nc) (hs : s ≠ [])
    (hnodup : (dict.map Prod.fst).Nodup)
    (hstrip : ∀ p ∈ dict, pyStrip p.1 = p.1) :
    (∀ p, p ∈ dict → p.1 ≠ "" →
      ∃ r, 2 ≤ r ∧
        getCell (hist_apply s dict fecha nc) r nc = valorCelda p.2 ∧
        pyStrip (getCell (hist_apply s dict fecha nc) r 2) = p.1) ∧
    (hist_apply s dict fecha nc).length =
      s.length + (skus_nuevos (mapear_sku_a_fila (col_values s 2)) dict).length ∧
    (∀ p, p ∈ dict → p.1 ≠ "" →
      apariciones (col_values (hist_apply s dict fecha nc) 2) p.1 =
        apariciones (col_values s 2) p.1 +
          (if mapear_sku_a_fila (col_values s 2) p.1 = none then 1 else 0)) := by
  have hslen : 1 ≤ s.length := List.length_pos.mpr hs
  set m0 := mapear_sku_a_fila (col_values s 2) with hm0def
  set nuevos := skus_nuevos m0 dict with hnuevosdef
  set s1 := setCell s 1 nc fecha with hs1def
  set s2 := (if nuevos.isEmpty then s1 else s1 ++ nuevos.map (fun k => ["", k])) with hs2def
  set m2 := (if nuevos.isEmpty then m0 else mapear_sku_a_fila (col_values s2 2)) with hm2def
  have happ : hist_apply s dict fecha nc = batch_update s2 (hist_updates m2 nc dict) := rfl
  have hcol1 : col_values s1 2 = col_values s 2 :=
    col_values_setCell s 1 nc 2 fecha (by omega) hslen (by omega) (by omega) (by omega)
  have hs1len : s1.length = s.length := by
    rw [hs1def, length_setCell]
    omega
  have hnuevos_strip : ∀ v ∈ nuevos, pyStrip v = v := by
    intro v hv
    obtain ⟨p, hp, hpk, -, -⟩ := (mem_skus_nuevos m0 dict v).mp hv
    rw [← hpk]
    exact hstrip p hp
  have hnuevos_none : ∀ v ∈ nuevos, m0 v = none := by
    intro v hv
    obtain ⟨p, hp, hpk, hk, hm⟩ := (mem_skus_nuevos m0 dict v).mp hv
    exact hm
  have hnocc : ∀ (k : String), m0 k ≠ none → ∀ v ∈ nuevos, ¬ (pyStrip v = k ∧ k ≠ "") := by
    intro k hk v hv
    rintro ⟨hvs, -⟩
    have hveq : v = k := by rw [← hnuevos_strip v hv, hvs]
    exact hk (by rw [← hveq]; exact hnuevos_none v hv)
  have hcol2 : col_values s2 2 = col_values s 2 ++ nuevos := by
    by_cases hemp : nuevos.isEmpty
    · rw [hs2def, if_pos hemp, hcol1, List.isEmpty_iff.mp hemp, List.append_nil]
    · rw [hs2def, if_neg hemp, col_values_append, hcol1]
      congr 1
      show (nuevos.map fun k => ["", k]).map (fun row => getRowCell row 2) = nuevos
      rw [List.map_map]
      have hid : ((fun row => getRowCell row 2) ∘ fun k => ["", k]) = fun k => k := by
        funext k
        rfl
      rw [hid, List.map_id']
  have hm2col : m2 = mapear_sku_a_fila (col_values s2 2) := by
    by_cases hemp : nuevos.isEmpty
    · rw [hm2def, if_pos hemp, hcol2, List.isEmpty_iff.mp hemp, List.append_nil]
    · rw [hm2def, if_neg hemp]
  have hs2len : s2.length = s.length + nuevos.length := by
    by_cases hemp : nuevos.isEmpty
    · rw [hs2def, if_pos hemp, hs1len, List.isEmpty_iff.mp hemp]
      rfl
    · rw [hs2def, if_neg hemp, List.length_append, hs1len, List.length_map]
  have hbounds : ∀ u ∈ hist_updates m2 nc dict, 2 ≤ u.1 ∧ u.1 ≤ s2.length ∧ u.2.1 = nc := by
    rw [hm2col]
    intro u hu
    obtain ⟨a, b, c⟩ := hist_updates_row_bounds (col_values s2 2) nc dict u hu
    rw [length_col_values] at b
    exact ⟨a, b, c⟩
  have hlenpost : (hist_apply s dict fecha nc).length = s2.length := by
    rw [happ]
    exact length_batch_update _ s2 (fun u hu => (hbounds u hu).2.1)
  have hcolpost : col_values (hist_apply s dict fecha nc) 2 = col_values s2 2 := by
    rw [happ]
    apply col_values_batch_update _ s2 2 (by omega)
    intro u hu
    obtain ⟨a, b, c⟩ := hbounds u hu
    exact ⟨by omega, b, by rw [c]; omega, by rw [c]; omega⟩
  have hm2some : ∀ p ∈ dict, p.1 ≠ "" → ∃ r, m2 p.1 = some r := by
    intro p hp hne
    cases hm0 : m0 p.1 with
    | some r0 =>
        refine ⟨r0, ?_⟩
        rw [hm2col, hcol2, mapear_append_no_new _ _ _ (hnocc p.1 (by rw [hm0]; simp))]
        rw [← hm0def]
        exact hm0
    | none =>
        have hmem : p.1 ∈ nuevos := (mem_skus_nuevos m0 dict p.1).mpr ⟨p, hp, rfl, hne, hm0⟩
        obtain ⟨n, hn⟩ := List.get?_of_mem hmem
        obtain ⟨hnlt, -⟩ := List.get?_eq_some.mp hn
        have hget : (col_values s2 2).get? ((col_values s 2).length + n + 1 - 1) =
            some p.1 := by
          rw [hcol2]
          have hsub : (col_values s 2).length + n + 1 - 1 = (col_values s 2).length + n := by
            omega
          rw [hsub, List.get?_eq_getElem?, List.getElem?_append_right (by omega),
            Nat.add_sub_cancel_left, ← List.get?_eq_getElem?]
          exact hn
        have hjlen : (col_values s 2).length + n + 1 ≤ (col_values s2 2).length := by
          rw [hcol2, List.length_append]
          omega
        have hj2 : 2 ≤ (col_values s 2).length + n + 1 := by
          rw [length_col_values]
          omega
        obtain ⟨r, hr⟩ := mapear_complete (col_values s2 2) p.1 p.1
          ((col_values s 2).length + n + 1) hj2 hjlen hget (hstrip p hp) hne
        rw [hm2col]
        exact ⟨r, hr⟩
  have hcell : ∀ p ∈ dict, ∀ r, m2 p.1 = some r →
      getCell (hist_apply s dict fecha nc) r nc = valorCelda p.2 := by
    intro p hp r hr
    have hrcol : mapear_sku_a_fila (col_values s2 2) p.1 = some r := by
      rw [← hm2col]
      exact hr
    obtain ⟨g2, glen, -, -⟩ := mapear_some _ _ _ hrcol
    rw [happ]
    apply getCell_batch_update_mem _ s2 r nc (valorCelda p.2) (by omega) (by omega)
    · intro u hu
      obtain ⟨a, b, c⟩ := hbounds u hu
      exact ⟨by omega, by rw [c]; omega⟩
    · exact (hist_updates_mem m2 nc dict (r, nc, valorCelda p.2)).mpr
        ⟨p, hp, hr, by omega, rfl⟩
    · intro u hu
      rintro ⟨hu1, hu2⟩
      obtain ⟨q, hq, hmq, -, huq⟩ := (hist_updates_mem m2 nc dict u).mp hu
      rw [hu1] at hmq
      have hmqcol : mapear_sku_a_fila (col_values s2 2) q.1 = some r := by
        rw [← hm2col]
        exact hmq
      have hkey : q.1 = p.1 := mapear_inj (col_values s2 2) q.1 p.1 r hmqcol hrcol
      have hq2 : (p.1, q.2) ∈ dict := by
        rw [← hkey, Prod.mk.eta]
        exact hq
      have hp2 : (p.1, p.2) ∈ dict := by
        rw [Prod.mk.eta]
        exact hp
      have hvals : q.2 = p.2 := eq_snd_of_nodup_keys dict hnodup p.1 q.2 p.2 hq2 hp2
      rw [huq, hvals]
  refine ⟨?_, ?_, ?_⟩
  · intro p hp hne
    obtain ⟨r, hr⟩ := hm2some p hp hne
    have hrcol : mapear_sku_a_fila (col_values s2 2) p.1 = some r := by
      rw [← hm2col]
      exact hr
    obtain ⟨g2, glen, -, v, hv, hvs⟩ := mapear_some _ _ _ hrcol
    refine ⟨r, g2, hcell p hp r hr, ?_⟩
    rw [getCell_eq_col_values, hcolpost, List.getD_eq_getElem?_getD,
      ← List.get?_eq_getElem?, hv]
    exact hvs
  · rw [hlenpost, hs2len]
  · intro p hp hne
    rw [hcolpost, hcol2, apariciones_append]
    cases hm0 : m0 p.1 with
    | some r0 =>
        rw [aparicionesAux_eq_zero nuevos _ p.1 ?_]
        · rw [if_neg (show ¬ (some r0 = (none : Option Nat)) by simp)]
        · intro v hv hvk
          exact hnocc p.1 (by rw [hm0]; simp) v hv ⟨hvk, hne⟩
    | none =>
        rw [if_pos (rfl : (none : Option Nat) = none)]
        have hmem : p.1 ∈ nuevos := (mem_skus_nuevos m0 dict p.1).mpr ⟨p, hp, rfl, hne, hm0⟩
        rw [aparicionesAux_of_stripped nuevos _ p.1
          (by rw [length_col_values]; omega) hnuevos_strip]
        rw [List.count_eq_one_of_mem (skus_nuevos_nodup m0 dict hnodup) hmem]

/-- C4: in one run's new date column, every dict identifier (nonblank, as
produced by the stripped sheet reads) ends with a write at its resolved row —
the value if present, an explicit blank for `None`; exactly one new row
holding the identifier in the SKU column is appended per identifier absent
from the table before the run (none for already-present ones); and writes
land correctly even for freshly appended identifiers because the SKU map is
re-resolved after the appends.  Proved for both files' versions. -/
theorem escribir_jumbo_historico_completo :
    ∀ (s : Sheet) (dict : List (String × Option ℤ)) (fecha : String),
      s ≠ [] → (dict.map Prod.fst).Nodup → (∀ p ∈ dict, pyStrip p.1 = p.1) →
      ((∀ p, p ∈ dict → p.1 ≠ "" →
          ∃ r, 2 ≤ r ∧
            getCell (Scraper.escribir_jumbo_historico s dict fecha) r
              (Scraper.siguiente_columna_historico s) = valorCelda p.2 ∧
            pyStrip (getCell (Scraper.escribir_jumbo_historico s dict fecha) r 2) = p.1) ∧
        (Scraper.escribir_jumbo_historico s dict fecha).length =
          s.length + (skus_nuevos (mapear_sku_a_fila (col_values s 2)) dict).length ∧
        (∀ p, p ∈ dict → p.1 ≠ "" →
          apariciones (col_values (Scraper.escribir_jumbo_historico s dict fecha) 2) p.1 =
            apariciones (col_values s 2) p.1 +
              (if mapear_sku_a_fila (col_values s 2) p.1 = none then 1 else 0))) ∧
      ((∀ p, p ∈ dict → p.1 ≠ "" →
          ∃ r, 2 ≤ r ∧
            getCell (Improved.escribir_jumbo_historico s dict fecha) r
              (Improved.obtener_siguiente_columna_historico s) = valorCelda p.2 ∧
            pyStrip (getCell (Improved.escribir_jumbo_historico s dict fecha) r 2) = p.1) ∧
        (Improved.escribir_jumbo_historico s dict fecha).length =
          s.length + (skus_nuevos (mapear_sku_a_fila (col_values s 2)) dict).length ∧
        (∀ p, p ∈ dict → p.1 ≠ "" →
          apariciones (col_values (Improved.escribir_jumbo_historico s dict fecha) 2) p.1 =
            apariciones (col_values s 2) p.1 +
              (if mapear_sku_a_fila (col_values s 2) p.1 = none then 1 else 0))) := by
  intro s dict fecha hs hnodup hstrip
  constructor
  · exact hist_apply_completo s dict fecha _
      (by rw [siguiente_columna_eq_max]; omega) hs hnodup hstrip
  · exact hist_apply_completo s dict fecha _
      (by rw [obtener_siguiente_eq_max]; omega) hs hnodup hstrip

/-- C4 witness: a two-row historical sheet with SKU "A"; the run's dict has
"A" with a value and "B" (new, absent) with `None`. -/
theorem escribir_jumbo_historico_completo_witness :
    (([["", "SKU", "01"], ["", "A", "5"]] : Sheet) ≠ []) ∧
    ((([("A", (some 7 : Option ℤ)), ("B", none)]).map Prod.fst).Nodup) ∧
    (∀ p ∈ [("A", (some 7 : Option ℤ)), ("B", none)], pyStrip p.1 = p.1) ∧
    (((∀ p, p ∈ [("A", (some 7 : Option ℤ)), ("B", none)] → p.1 ≠ "" →
          ∃ r, 2 ≤ r ∧
            getCell (Scraper.escribir_jumbo_historico [["", "SKU", "01"], ["", "A", "5"]]
                [("A", (some 7 : Option ℤ)), ("B", none)] "02") r
              (Scraper.siguiente_columna_historico [["", "SKU", "01"], ["", "A", "5"]]) =
              valorCelda p.2 ∧
            pyStrip (getCell (Scraper.escribir_jumbo_historico
                [["", "SKU", "01"], ["", "A", "5"]]
                [("A", (some 7 : Option ℤ)), ("B", none)] "02") r 2) = p.1) ∧
        (Scraper.escribir_jumbo_historico [["", "SKU", "01"], ["", "A", "5"]]
            [("A", (some 7 : Option ℤ)), ("B", none)] "02").length =
          ([["", "SKU", "01"], ["", "A", "5"]] : Sheet).length +
            (skus_nuevos
              (mapear_sku_a_fila (col_values [["", "SKU", "01"], ["", "A", "5"]] 2))
              [("A", (some 7 : Option ℤ)), ("B", none)]).length ∧
        (∀ p, p ∈ [("A", (some 7 : Option ℤ)), ("B", none)] → p.1 ≠ "" →
          apariciones (col_values (Scraper.escribir_jumbo_historico
              [["", "SKU", "01"], ["", "A", "5"]]
              [("A", (some 7 : Option ℤ)), ("B", none)] "02") 2) p.1 =
            apariciones (col_values [["", "SKU", "01"], ["", "A", "5"]] 2) p.1 +
              (if mapear_sku_a_fila (col_values [["", "SKU", "01"], ["", "A", "5"]] 2) p.1 =
                  none then 1 else 0))) ∧
      ((∀ p, p ∈ [("A", (some 7 : Option ℤ)), ("B", none)] → p.1 ≠ "" →
          ∃ r, 2 ≤ r ∧
            getCell (Improved.escribir_jumbo_historico [["", "SKU", "01"], ["", "A", "5"]]
                [("A", (some 7 : Option ℤ)), ("B", none)] "02") r
              (Improved.obtener_siguiente_columna_historico
                [["", "SKU", "01"], ["", "A", "5"]]) = valorCelda p.2 ∧
            pyStrip (getCell (Improved.escribir_jumbo_historico
                [["", "SKU", "01"], ["", "A", "5"]]
                [("A", (some 7 : Option ℤ)), ("B", none)] "02") r 2) = p.1) ∧
        (Improved.escribir_jumbo_historico [["", "SKU", "01"], ["", "A", "5"]]
            [("A", (some 7 : Option ℤ)), ("B", none)] "02").length =
          ([["", "SKU", "01"], ["", "A", "5"]] : Sheet).length +
            (skus_nuevos
              (mapear_sku_a_fila (col_values [["", "SKU", "01"], ["", "A", "5"]] 2))
              [("A", (some 7 : Option ℤ)), ("B", none)]).length ∧
        (∀ p, p ∈ [("A", (some 7 : Option ℤ)), ("B", none)] → p.1 ≠ "" →
          apariciones (col_values (Improved.escribir_jumbo_historico
              [["", "SKU", "01"], ["", "A", "5"]]
              [("A", (some 7 : Option ℤ)), ("B", none)] "02") 2) p.1 =
            apariciones (col_values [["", "SKU", "01"], ["", "A", "5"]] 2) p.1 +
              (if mapear_sku_a_fila (col_values [["", "SKU", "01"], ["", "A", "5"]] 2) p.1 =
                  none then 1 else 0)))) :=
  ⟨by decide, by decide, by decide,
   escribir_jumbo_historico_completo [["", "SKU", "01"], ["", "A", "5"]]
     [("A", (some 7 : Option ℤ)), ("B", none)] "02" (by decide) (by decide) (by decide)⟩
